import Mathlib

/-!
Verification development for the Reddit → Graph ETL pipeline
(havkerboi123/bd-assign-1): a Collector (`scrp.py`), an Enricher
(`llm.py`) and a Neo4j schema initializer (`setuo-neo.py`).

Each Python function relevant to the properties below is shallowly
embedded as an executable Lean definition.  External services (the
classification API, the Reddit API, the database) are modelled as
explicit inputs/oracles; JSON-line files are modelled as Lean lists;
machine timestamps are modelled at whole-second granularity as `Int`.
-/

namespace BD

/-! ## Enricher (`src/llm.py`) -/

/-- A JSON-ish value, sufficient for the fields the Enricher reads and
writes on a post record. -/
inductive Val where
  | vnull : Val
  | vstr (s : String) : Val
  | vint (n : Int) : Val
  | vstrlist (l : List String) : Val
  | vbool (b : Bool) : Val
deriving DecidableEq, Repr

/-- A decoded JSON object (a Python dict): association list keyed by
field name, first occurrence wins on lookup. -/
abbrev PDict := List (String × Val)

/-- Python `d.get(k)` / `d[k]`: value at the first occurrence of key `k`. -/
def dlookup (d : PDict) (k : String) : Option Val :=
  match d with
  | [] => none
  | (k', v) :: rest => if k' = k then some v else dlookup rest k

/-- Python `d[k] = v` on a dict: replace the value in place if the key
is present, otherwise append the new key at the end. -/
def dset (d : PDict) (k : String) (v : Val) : PDict :=
  if d.any (fun kv => kv.1 = k) then
    d.map (fun kv => if kv.1 = k then (k, v) else kv)
  else d ++ [(k, v)]

/-- The `keywords` field of the raw service reply, as inspected by the
`isinstance(analysis["keywords"], list)` check in `analyze_post`. -/
inductive KwVal where
  | list (l : List String) : KwVal
  | notList : KwVal
deriving DecidableEq, Repr

/-- The raw structured reply of the classification service
(the parsed `PostAnalysis` object of `llm.py`). -/
structure RawAnalysis where
  category : String
  sentiment : String
  keywords : KwVal
  description : String
deriving DecidableEq, Repr

/-- Outcome of one call to the classification service: either a parsed
reply, or any raised exception (network, parsing, validation). -/
inductive SvcResult where
  | ok (r : RawAnalysis) : SvcResult
  | err : SvcResult
deriving DecidableEq, Repr

/-- The validated analysis dict that `analyze_post` returns. -/
structure Analysis where
  category : String
  sentiment : String
  keywords : List String
  description : String
deriving DecidableEq, Repr

/-- `valid_categories` from `analyze_post`. -/
def valid_categories : List String := ["campus_life", "academics", "admissions"]

/-- `valid_sentiments` from `analyze_post`. -/
def valid_sentiments : List String := ["positive", "negative", "neutral"]

/-- `analyze_post` (`llm.py` lines 52–105).  The service call is the
`svc` argument; the `title`/`body` inputs only shape the prompt sent to
the service, so they do not appear.  On any exception the fixed default
record is returned; on success the enum/shape coercions are applied. -/
def analyze_post (svc : SvcResult) : Analysis :=
  match svc with
  | .err =>
      { category := "campus_life", sentiment := "neutral",
        keywords := [], description := "Error during analysis" }
  | .ok r =>
      let cat := if r.category ∈ valid_categories then r.category else "campus_life"
      let sent := if r.sentiment ∈ valid_sentiments then r.sentiment else "neutral"
      let kws := match r.keywords with
        | .list l => l
        | .notList => []
      { category := cat, sentiment := sent, keywords := kws, description := r.description }

/-- The per-post mutation of `enrich_posts` (`llm.py` lines 143–148):
set `category`, `sentiment`, `keywords`, then `llm_description`.
The guard `if "description" in analysis` is always true, since both
branches of `analyze_post` populate `description`. -/
def enrichRecord (post : PDict) (a : Analysis) : PDict :=
  dset (dset (dset (dset post "category" (.vstr a.category))
      "sentiment" (.vstr a.sentiment))
      "keywords" (.vstrlist a.keywords))
      "llm_description" (.vstr a.description)

/-- Enrich the in-memory post list in input order; `oracle i` is the
outcome of the classification call for the `i`-th post. -/
def enrichAll (oracle : Nat → SvcResult) (posts : List PDict) : List PDict :=
  posts.enum.map (fun ip => enrichRecord ip.2 (analyze_post (oracle ip.1)))

/-- The files `enrich_posts` touches.  `input` is `posts.jsonl`
(`none` = file missing; each line is `none` when blank after `strip()`,
otherwise the decoded record).  `output` is `posts_enriched.jsonl`
(`none` = absent). -/
structure EnrFS where
  input : Option (List (Option PDict))
  output : Option (List PDict)
deriving DecidableEq, Repr

/-- `enrich_posts` (`llm.py` lines 108–171).  Missing input: print and
return, touching nothing.  Otherwise: read non-blank lines, delete any
prior output, then append one enriched record per post in order. -/
def enrich_posts (oracle : Nat → SvcResult) (fs : EnrFS) : EnrFS :=
  match fs.input with
  | none => fs
  | some lines =>
      let posts := lines.filterMap id
      { fs with output := some (enrichAll oracle posts) }

/-! ## Collector (`src/scrp.py`) -/

/-- `iso_day`'s day count: `datetime.fromtimestamp(ts, tz=utc).date()`
is the civil day containing `ts`, i.e. `⌊ts / 86400⌋` days from the Unix
epoch (timestamps at second granularity). -/
def daysFromEpoch (ts : Int) : Int := Int.fdiv ts 86400

/-- Civil date from a count of days since 1970-01-01 (proleptic
Gregorian calendar, as Python's `datetime.date`): `(year, month, day)`. -/
def civilFromDays (z0 : Int) : Int × Int × Int :=
  let z := z0 + 719468
  let era := Int.fdiv z 146097
  let doe := z - era * 146097
  let yoe := Int.fdiv (doe - Int.fdiv doe 1460 + Int.fdiv doe 36524 - Int.fdiv doe 146096) 365
  let y := yoe + era * 400
  let doy := doe - (365 * yoe + Int.fdiv yoe 4 - Int.fdiv yoe 100)
  let mp := Int.fdiv (5 * doy + 2) 153
  let d := doy - Int.fdiv (153 * mp + 2) 5 + 1
  let m := mp + (if mp < 10 then 3 else -9)
  (y + (if m ≤ 2 then 1 else 0), m, d)

/-- One decimal digit as a character. -/
def digitChar (n : Nat) : Char := Char.ofNat (48 + n % 10)

/-- Zero-padded two-digit decimal rendering (months, days). -/
def pad2 (n : Nat) : String := String.mk [digitChar (n / 10), digitChar n]

/-- Zero-padded four-digit decimal rendering (years; Python's
`date.isoformat` prints `%04d` and `date` years lie in 1..9999). -/
def pad4 (n : Nat) : String :=
  String.mk [digitChar (n / 1000), digitChar (n / 100), digitChar (n / 10), digitChar n]

/-- `iso_day` (`scrp.py` lines 35–36): the ISO `YYYY-MM-DD` rendering of
the UTC calendar date containing timestamp `ts`. -/
def iso_day (ts : Int) : String :=
  let ymd := civilFromDays (daysFromEpoch ts)
  pad4 ymd.1.toNat ++ "-" ++ pad2 ymd.2.1.toNat ++ "-" ++ pad2 ymd.2.2.toNat

/-- `safe_author` (`scrp.py` lines 42–55): resolve `(author_id,
author_name)` without a network fetch.  The input is the author's
`.name` attribute (`none` for a deleted/suspended account object that is
`None`; an empty string is falsy in `getattr(...) or "[deleted]"`).
The id is deliberately never fetched and stays `none`. -/
def safe_author (author : Option String) : Option String × String :=
  match author with
  | none => (none, "[deleted]")
  | some n => (none, if n = "" then "[deleted]" else n)

/-- `a_id or f"name:{a_name}"` (`scrp.py` lines 119 and 157): Python
`or` falls through on a falsy (absent or empty) id. -/
def idOrNameKey (a_id : Option String) (name : String) : String :=
  match a_id with
  | some i => if i = "" then "name:" ++ name else i
  | none => "name:" ++ name

/-- The reputation metadata the Reddit API would return for a user
name: `(total_karma, account_created)`. -/
abbrev MetaOracle := String → Option Int × Option Int

/-- `fetch_user_meta` (`scrp.py` lines 57–74): short-circuits for empty
or `"[deleted]"` names; any API failure is already folded into the
oracle's answer (`(none, none)`). -/
def fetch_user_meta (oracle : MetaOracle) (name : String) : Option Int × Option Int :=
  if name = "" ∨ name = "[deleted]" then (none, none) else oracle name

/-- One comment as surfaced by the Reddit API after
`replace_more(limit=0)`; `isMore` marks a residual `MoreComments`
placeholder, skipped by the loop. -/
structure CommentIn where
  isMore : Bool
  id : String
  author : Option String
  parent_id : Option String
  body : String
  created_utc : Int
  score : Option Int
  depth : Int
  is_submitter : Bool
deriving DecidableEq, Repr

/-- One submission as surfaced by the Reddit API (at most `POST_LIMIT`
of these per run). -/
structure SubmissionIn where
  id : String
  author : Option String
  title : String
  selftext : String
  url : String
  created_utc : Int
  score : Option Int
  num_comments : Option Int
  comments : List CommentIn
deriving DecidableEq, Repr

/-- A Post record as written to `posts.jsonl` (`scrp.py` lines 98–111). -/
structure PostRec where
  id : String
  subreddit : String
  title : String
  selftext : String
  url : String
  created_utc : Int
  iso_day : String
  score : Option Int
  num_comments : Int
  author_id : Option String
  author_name : String
deriving DecidableEq, Repr

/-- A Comment record as written to `comments.jsonl`
(`scrp.py` lines 136–149). -/
structure CommentRec where
  id : String
  parent_id : Option String
  link_id : String
  body : String
  created_utc : Int
  iso_day : String
  score : Option Int
  depth : Int
  is_submitter : Bool
  author_id : Option String
  author_name : String
deriving DecidableEq, Repr

/-- A User record as written to `users.jsonl`
(`scrp.py` lines 117–123 and 155–161). -/
structure UserRec where
  id : String
  name : String
  total_karma : Option Int
  account_created : Option Int
deriving DecidableEq, Repr

/-- `c.parent_id.split("_", 1)[-1]`: drop everything up to and
including the first underscore; a string with no underscore is kept
whole. -/
def afterFirstUnderscore : List Char → Option (List Char)
  | [] => none
  | c :: cs => if c = '_' then some cs else afterFirstUnderscore cs

/-- Python `s.split("_", 1)[-1]` on a string. -/
def stripTypePrefix (s : String) : String :=
  match afterFirstUnderscore s.data with
  | some rest => String.mk rest
  | none => s

/-- `parent_id` of a comment record (`scrp.py` line 139):
`c.parent_id.split("_", 1)[-1] if c.parent_id else None` — `None` and
the empty string are both falsy. -/
def pyParentId (p : Option String) : Option String :=
  match p with
  | none => none
  | some s => if s = "" then none else some (stripTypePrefix s)

/-- Build the Post record for a submission (`scrp.py` lines 98–111). -/
def mkPostRec (subName : String) (a_id : Option String) (a_name : String)
    (s : SubmissionIn) : PostRec :=
  { id := s.id, subreddit := subName, title := s.title, selftext := s.selftext,
    url := s.url, created_utc := s.created_utc, iso_day := iso_day s.created_utc,
    score := s.score, num_comments := s.num_comments.getD 0,
    author_id := a_id, author_name := a_name }

/-- Build the Comment record for a comment (`scrp.py` lines 136–149);
`link_id` is the owning submission's id. -/
def mkCommentRec (linkId : String) (ca_id : Option String) (ca_name : String)
    (c : CommentIn) : CommentRec :=
  { id := c.id, parent_id := pyParentId c.parent_id, link_id := linkId,
    body := c.body, created_utc := c.created_utc, iso_day := iso_day c.created_utc,
    score := c.score, depth := c.depth, is_submitter := c.is_submitter,
    author_id := ca_id, author_name := ca_name }

/-- Build a User record (`scrp.py` lines 117–123 / 155–161). -/
def mkUserRec (a_id : Option String) (name : String)
    (meta : Option Int × Option Int) : UserRec :=
  { id := idOrNameKey a_id name, name := name,
    total_karma := meta.1, account_created := meta.2 }

/-- The Collector's observable state for one run: the records appended
to each JSONL file this run, the in-memory `seen_users` set, and the
log of names passed to `fetch_user_meta` (to reason about which
reputation-enrichment calls are made). -/
structure CState where
  posts : List PostRec
  comments : List CommentRec
  users : List UserRec
  seen : List String
  metaCalls : List String
deriving DecidableEq, Repr

/-- The comment-loop body (`scrp.py` lines 129–163): skip placeholder
nodes, append the Comment record, then conditionally enrich and append
the author's User record (never for `""`, already-seen names, or
`"[deleted]"`). -/
def procComment (oracle : MetaOracle) (linkId : String) (st : CState)
    (c : CommentIn) : CState :=
  if c.isMore then st
  else
    let an := safe_author c.author
    let st1 := { st with comments := st.comments ++ [mkCommentRec linkId an.1 an.2 c] }
    if an.2 ≠ "" ∧ an.2 ∉ st1.seen ∧ an.2 ≠ "[deleted]" then
      let meta := fetch_user_meta oracle an.2
      { st1 with users := st1.users ++ [mkUserRec an.1 an.2 meta],
                 seen := st1.seen ++ [an.2],
                 metaCalls := st1.metaCalls ++ [an.2] }
    else st1

/-- The submission-loop body (`scrp.py` lines 93–163): append the Post
record, conditionally enrich and append the post author's User record
(post authors are not shielded from `"[deleted]"`), then process the
flattened comment list. -/
def procSubmission (oracle : MetaOracle) (subName : String) (st : CState)
    (s : SubmissionIn) : CState :=
  let an := safe_author s.author
  let st1 := { st with posts := st.posts ++ [mkPostRec subName an.1 an.2 s] }
  let st2 :=
    if an.2 ≠ "" ∧ an.2 ∉ st1.seen then
      let meta := fetch_user_meta oracle an.2
      { st1 with users := st1.users ++ [mkUserRec an.1 an.2 meta],
                 seen := st1.seen ++ [an.2],
                 metaCalls := st1.metaCalls ++ [an.2] }
    else st1
  s.comments.foldl (procComment oracle s.id) st2

/-- One Collector run (`main`, `scrp.py` lines 77–165) over the
submissions the API returns: files start empty for this run's appends
and `seen_users` starts empty. -/
def collectorRun (oracle : MetaOracle) (subName : String)
    (subs : List SubmissionIn) : CState :=
  subs.foldl (procSubmission oracle subName) ⟨[], [], [], [], []⟩

/-! ## Schema initializer (`src/setuo-neo.py`) -/

/-- A `Category` node: `name` plus an optional `description` property
(absent properties are `none`). -/
structure CategoryNode where
  name : String
  description : Option String
deriving DecidableEq, Repr

/-- The Category nodes of the graph database, in creation order. -/
abbrev CatDB := List CategoryNode

/-- `CATEGORIES` (`setuo-neo.py` lines 54–58). -/
def CATEGORIES : List (String × String) :=
  [("campus_life", "Student life, events, hostel/food, facilities, clubs, sports, social activities"),
   ("academics", "Courses, exams, professors, assignments, grades, GPA, schedules"),
   ("admissions", "Applications, entrance tests, merit lists, scholarships, program selection")]

/-- Semantics of the Cypher statement in `seed_categories`
(`setuo-neo.py` lines 72–76):
`MERGE (c:Category {name: $name}) ON CREATE SET c.description = $desc
ON MATCH SET c.description = coalesce(c.description, $desc)` —
create the node with the seed description when no node with that name
exists; otherwise fill `description` only where it was absent. -/
def mergeCategory (db : CatDB) (name desc : String) : CatDB :=
  if db.any (fun c => c.name = name) then
    db.map (fun c =>
      if c.name = name then { c with description := some (c.description.getD desc) }
      else c)
  else db ++ [{ name := name, description := some desc }]

/-- `seed_categories` (`setuo-neo.py` lines 68–80): issue the upsert
for each of the three fixed rows in order. -/
def seed_categories (db : CatDB) : CatDB :=
  CATEGORIES.foldl (fun db nd => mergeCategory db nd.1 nd.2) db

/-! ## Helper lemmas: dict update/lookup -/

theorem dlookup_map_set_of_any (d : PDict) (k : String) (v : Val)
    (h : d.any (fun kv => kv.1 = k)) :
    dlookup (d.map (fun kv => if kv.1 = k then (k, v) else kv)) k = some v := by
  induction d with
  | nil => simp at h
  | cons hd tl ih =>
      obtain ⟨k1, v1⟩ := hd
      by_cases hk : k1 = k
      · subst hk
        simp only [List.map_cons, if_true]
        simp [dlookup]
      · simp only [List.any_cons, Bool.or_eq_true, decide_eq_true_eq] at h
        rcases h with h | h
        · exact absurd h hk
        · simp only [List.map_cons]
          rw [if_neg hk]
          simp only [dlookup, if_neg hk]
          exact ih h

theorem dlookup_append_last (d : PDict) (k : String) (v : Val)
    (h : ¬ d.any (fun kv => kv.1 = k)) :
    dlookup (d ++ [(k, v)]) k = some v := by
  induction d with
  | nil => simp [dlookup]
  | cons hd tl ih =>
      obtain ⟨k1, v1⟩ := hd
      simp only [List.any_cons, Bool.or_eq_true, decide_eq_true_eq, not_or] at h
      simp only [List.cons_append, dlookup, if_neg h.1]
      exact ih (by simpa using h.2)

theorem dlookup_dset_self (d : PDict) (k : String) (v : Val) :
    dlookup (dset d k v) k = some v := by
  unfold dset
  split
  · exact dlookup_map_set_of_any d k v (by assumption)
  · exact dlookup_append_last d k v (by assumption)

theorem dlookup_map_set_ne (d : PDict) (k k' : String) (v : Val) (h : k' ≠ k) :
    dlookup (d.map (fun kv => if kv.1 = k then (k, v) else kv)) k' = dlookup d k' := by
  induction d with
  | nil => rfl
  | cons hd tl ih =>
      obtain ⟨k1, v1⟩ := hd
      by_cases hk : k1 = k
      · subst hk
        have hne : ¬ k1 = k' := fun hc => h hc.symm
        simp only [List.map_cons, if_true]
        simp only [dlookup, if_neg hne]
        exact ih
      · by_cases hk' : k1 = k'
        · subst hk'
          simp only [List.map_cons]
          rw [if_neg hk]
          simp [dlookup]
        · simp only [List.map_cons]
          rw [if_neg hk]
          simp only [dlookup, if_neg hk']
          exact ih

theorem dlookup_append_ne (d : PDict) (k k' : String) (v : Val) (h : k' ≠ k) :
    dlookup (d ++ [(k, v)]) k' = dlookup d k' := by
  induction d with
  | nil => simp [dlookup, Ne.symm h]
  | cons hd tl ih =>
      obtain ⟨k1, v1⟩ := hd
      by_cases hk' : k1 = k'
      · simp [dlookup, hk']
      · simp only [List.cons_append, dlookup, if_neg hk']
        exact ih

theorem dlookup_dset_ne (d : PDict) (k k' : String) (v : Val) (h : k' ≠ k) :
    dlookup (dset d k v) k' = dlookup d k' := by
  unfold dset
  split
  · exact dlookup_map_set_ne d k k' v h
  · exact dlookup_append_ne d k k' v h

theorem dlookup_dset_isSome (d : PDict) (k k' : String) (v : Val)
    (h : (dlookup d k').isSome) : (dlookup (dset d k v) k').isSome := by
  by_cases hk : k' = k
  · subst hk; simp [dlookup_dset_self]
  · rwa [dlookup_dset_ne d k k' v hk]

/-! ## Helper lemmas: enricher -/

theorem enrichRecord_category (p : PDict) (a : Analysis) :
    dlookup (enrichRecord p a) "category" = some (.vstr a.category) := by
  unfold enrichRecord
  rw [dlookup_dset_ne _ _ _ _ (by decide), dlookup_dset_ne _ _ _ _ (by decide),
    dlookup_dset_ne _ _ _ _ (by decide), dlookup_dset_self]

theorem enrichRecord_sentiment (p : PDict) (a : Analysis) :
    dlookup (enrichRecord p a) "sentiment" = some (.vstr a.sentiment) := by
  unfold enrichRecord
  rw [dlookup_dset_ne _ _ _ _ (by decide), dlookup_dset_ne _ _ _ _ (by decide),
    dlookup_dset_self]

theorem enrichRecord_keywords (p : PDict) (a : Analysis) :
    dlookup (enrichRecord p a) "keywords" = some (.vstrlist a.keywords) := by
  unfold enrichRecord
  rw [dlookup_dset_ne _ _ _ _ (by decide), dlookup_dset_self]

theorem enrichRecord_description (p : PDict) (a : Analysis) :
    dlookup (enrichRecord p a) "llm_description" = some (.vstr a.description) := by
  unfold enrichRecord
  rw [dlookup_dset_self]

theorem enrichRecord_frame (p : PDict) (a : Analysis) (k : String)
    (h1 : k ≠ "category") (h2 : k ≠ "sentiment") (h3 : k ≠ "keywords")
    (h4 : k ≠ "llm_description") :
    dlookup (enrichRecord p a) k = dlookup p k := by
  unfold enrichRecord
  rw [dlookup_dset_ne _ _ _ _ h4, dlookup_dset_ne _ _ _ _ h3,
    dlookup_dset_ne _ _ _ _ h2, dlookup_dset_ne _ _ _ _ h1]

theorem analyze_post_enums (svc : SvcResult) :
    (analyze_post svc).category ∈ valid_categories ∧
      (analyze_post svc).sentiment ∈ valid_sentiments := by
  cases svc with
  | err => exact ⟨by decide, by decide⟩
  | ok r =>
      constructor
      · show (if r.category ∈ valid_categories then r.category else "campus_life") ∈ _
        split
        · assumption
        · decide
      · show (if r.sentiment ∈ valid_sentiments then r.sentiment else "neutral") ∈ _
        split
        · assumption
        · decide

theorem enrichAll_length (oracle : Nat → SvcResult) (posts : List PDict) :
    (enrichAll oracle posts).length = posts.length := by
  simp [enrichAll]

theorem enrichAll_getElem (oracle : Nat → SvcResult) (posts : List PDict)
    (i : Nat) (p : PDict) (hp : posts[i]? = some p) :
    (enrichAll oracle posts)[i]? = some (enrichRecord p (analyze_post (oracle i))) := by
  unfold enrichAll
  rw [List.getElem?_map, List.getElem?_enum, hp]
  rfl

/-! ## Claim theorems: Enricher -/

/-- C1: if the classification call for a post raises any exception, the
enriched record written for that post carries exactly the default label
`category="campus_life"`, `sentiment="neutral"`, `keywords=[]`,
`llm_description="Error during analysis"`, and the run still produces
one output record per input post (it continues rather than aborting). -/
theorem claim_C1_error_gives_default_record (oracle : Nat → SvcResult)
    (fs : EnrFS) (lines : List (Option PDict)) (hin : fs.input = some lines)
    (i : Nat) (hor : oracle i = .err) (r : PDict)
    (hr : (enrichAll oracle (lines.filterMap id))[i]? = some r) :
    (enrich_posts oracle fs).output = some (enrichAll oracle (lines.filterMap id)) ∧
    (enrichAll oracle (lines.filterMap id)).length = (lines.filterMap id).length ∧
    dlookup r "category" = some (.vstr "campus_life") ∧
    dlookup r "sentiment" = some (.vstr "neutral") ∧
    dlookup r "keywords" = some (.vstrlist []) ∧
    dlookup r "llm_description" = some (.vstr "Error during analysis") := by
  refine ⟨by simp [enrich_posts, hin], enrichAll_length oracle _, ?_⟩
  have hlt : i < (lines.filterMap id).length := by
    by_contra hge
    rw [List.getElem?_eq_none (by
      rw [enrichAll_length]
      omega : (enrichAll oracle (lines.filterMap id)).length ≤ i)] at hr
    exact Option.noConfusion hr
  have hp : (lines.filterMap id)[i]? = some ((lines.filterMap id)[i]) :=
    List.getElem?_eq_getElem hlt
  rw [enrichAll_getElem oracle _ i _ hp, hor] at hr
  obtain rfl : r = enrichRecord ((lines.filterMap id)[i]) (analyze_post .err) :=
    (Option.some_injective _ hr).symm
  refine ⟨enrichRecord_category _ _, enrichRecord_sentiment _ _,
    enrichRecord_keywords _ _, enrichRecord_description _ _⟩

/-- Witness for C1 at a concrete input: a one-post file whose
classification errors out. -/
theorem claim_C1_error_gives_default_record_witness :
    (EnrFS.mk (some [some [("id", .vstr "abc123")], none]) none).input
        = some [some [("id", .vstr "abc123")], none] ∧
      ((fun _ => SvcResult.err) 0 = SvcResult.err) ∧
      ((enrichAll (fun _ => SvcResult.err)
          (([some [("id", .vstr "abc123")], none] :
            List (Option PDict)).filterMap id))[0]?
        = some (enrichRecord [("id", .vstr "abc123")] (analyze_post .err))) ∧
      (dlookup (enrichRecord [("id", .vstr "abc123")] (analyze_post .err))
          "llm_description" = some (.vstr "Error during analysis")) := by
  refine ⟨rfl, rfl, by decide, ?_⟩
  exact (claim_C1_error_gives_default_record (fun _ => .err)
    (EnrFS.mk (some [some [("id", .vstr "abc123")], none]) none)
    [some [("id", .vstr "abc123")], none] rfl 0 rfl
    (enrichRecord [("id", .vstr "abc123")] (analyze_post .err))
    (by decide)).2.2.2.2.2

/-- C2: every record the Enricher writes has `category` in
{campus_life, academics, admissions} and `sentiment` in
{positive, negative, neutral}; an out-of-enum category from the service
is replaced with `"campus_life"`, an out-of-enum sentiment with
`"neutral"`, and a non-list keywords value with `[]` — the reply is
never rejected. -/
theorem claim_C2_enum_membership_and_coercion (oracle : Nat → SvcResult)
    (posts : List PDict) (r : PDict) (hr : r ∈ enrichAll oracle posts) :
    ((∃ c ∈ valid_categories, dlookup r "category" = some (.vstr c)) ∧
     (∃ s ∈ valid_sentiments, dlookup r "sentiment" = some (.vstr s))) ∧
    (∀ raw : RawAnalysis,
      (raw.category ∉ valid_categories →
        (analyze_post (.ok raw)).category = "campus_life") ∧
      (raw.sentiment ∉ valid_sentiments →
        (analyze_post (.ok raw)).sentiment = "neutral") ∧
      (raw.keywords = .notList → (analyze_post (.ok raw)).keywords = [])) := by
  constructor
  · obtain ⟨ip, _, rfl⟩ := List.mem_map.1 hr
    obtain ⟨hc, hs⟩ := analyze_post_enums (oracle ip.1)
    exact ⟨⟨_, hc, enrichRecord_category _ _⟩, ⟨_, hs, enrichRecord_sentiment _ _⟩⟩
  · intro raw
    refine ⟨fun h => ?_, fun h => ?_, fun h => ?_⟩
    · show (if raw.category ∈ valid_categories then raw.category else "campus_life") = _
      rw [if_neg h]
    · show (if raw.sentiment ∈ valid_sentiments then raw.sentiment else "neutral") = _
      rw [if_neg h]
    · show (match raw.keywords with | .list l => l | .notList => []) = _
      rw [h]

/-- Witness for C2 at a concrete input: the service returns an
out-of-enum category and a non-list keywords value. -/
theorem claim_C2_enum_membership_and_coercion_witness :
    (enrichRecord [("id", .vstr "p1")]
        (analyze_post (.ok ⟨"sports", "positive", .notList, "d"⟩)) ∈
      enrichAll (fun _ => .ok ⟨"sports", "positive", .notList, "d"⟩)
        [[("id", .vstr "p1")]]) ∧
      (∃ c ∈ valid_categories,
        dlookup (enrichRecord [("id", .vstr "p1")]
            (analyze_post (.ok ⟨"sports", "positive", .notList, "d"⟩)))
          "category" = some (.vstr c)) := by
  refine ⟨by decide, ?_⟩
  exact (claim_C2_enum_membership_and_coercion
    (fun _ => .ok ⟨"sports", "positive", .notList, "d"⟩) [[("id", .vstr "p1")]]
    _ (by decide)).1.1

/-- C3: the Enricher rebuilds its output from scratch — whatever output
file existed before, after a run with an existing input the output is
exactly the enrichment of the non-blank input lines, one record per
post, in input order, with equal counts. -/
theorem claim_C3_rebuild_one_record_per_line (oracle : Nat → SvcResult)
    (fs : EnrFS) (lines : List (Option PDict)) (hin : fs.input = some lines) :
    (enrich_posts oracle fs).output = some (enrichAll oracle (lines.filterMap id)) ∧
    (enrichAll oracle (lines.filterMap id)).length = (lines.filterMap id).length ∧
    (∀ i p, (lines.filterMap id)[i]? = some p →
      (enrichAll oracle (lines.filterMap id))[i]?
        = some (enrichRecord p (analyze_post (oracle i)))) := by
  refine ⟨by simp [enrich_posts, hin], enrichAll_length oracle _, ?_⟩
  intro i p hp
  exact enrichAll_getElem oracle _ i p hp

/-- Witness for C3 at a concrete input: two posts, a blank line, and a
pre-existing output file that gets discarded. -/
theorem claim_C3_rebuild_one_record_per_line_witness :
    (EnrFS.mk (some [some [("id", .vstr "a")], none, some [("id", .vstr "b")]])
        (some [[("stale", .vnull)]])).input
      = some [some [("id", .vstr "a")], none, some [("id", .vstr "b")]] ∧
      (enrich_posts (fun _ => .err)
          (EnrFS.mk (some [some [("id", .vstr "a")], none, some [("id", .vstr "b")]])
            (some [[("stale", .vnull)]]))).output
        = some (enrichAll (fun _ => .err)
            (([some [("id", .vstr "a")], none, some [("id", .vstr "b")]] :
              List (Option PDict)).filterMap id)) := by
  refine ⟨rfl, ?_⟩
  exact (claim_C3_rebuild_one_record_per_line (fun _ => .err) _ _ rfl).1

/-- C4: enriching a post preserves every field outside
{category, sentiment, keywords, llm_description} unchanged, deletes no
field, and sets exactly those four fields. -/
theorem claim_C4_frame_preservation (post : PDict) (a : Analysis) :
    (∀ k, k ≠ "category" → k ≠ "sentiment" → k ≠ "keywords" →
      k ≠ "llm_description" →
      dlookup (enrichRecord post a) k = dlookup post k) ∧
    (∀ k, (dlookup post k).isSome → (dlookup (enrichRecord post a) k).isSome) ∧
    dlookup (enrichRecord post a) "category" = some (.vstr a.category) ∧
    dlookup (enrichRecord post a) "sentiment" = some (.vstr a.sentiment) ∧
    dlookup (enrichRecord post a) "keywords" = some (.vstrlist a.keywords) ∧
    dlookup (enrichRecord post a) "llm_description" = some (.vstr a.description) := by
  refine ⟨fun k h1 h2 h3 h4 => enrichRecord_frame post a k h1 h2 h3 h4,
    fun k hk => ?_, enrichRecord_category _ _, enrichRecord_sentiment _ _,
    enrichRecord_keywords _ _, enrichRecord_description _ _⟩
  by_cases h1 : k = "category"
  · subst h1; rw [enrichRecord_category]; rfl
  by_cases h2 : k = "sentiment"
  · subst h2; rw [enrichRecord_sentiment]; rfl
  by_cases h3 : k = "keywords"
  · subst h3; rw [enrichRecord_keywords]; rfl
  by_cases h4 : k = "llm_description"
  · subst h4; rw [enrichRecord_description]; rfl
  rwa [enrichRecord_frame post a k h1 h2 h3 h4]

/-- Witness for C4 at a concrete input: the `id` and `title` fields of
a post survive enrichment unchanged. -/
theorem claim_C4_frame_preservation_witness :
    ("id" ≠ "category" ∧ (dlookup [("id", Val.vstr "x"),
        ("title", .vstr "t")] "id").isSome) ∧
      dlookup (enrichRecord [("id", .vstr "x"), ("title", .vstr "t")]
          ⟨"academics", "positive", ["exam"], "d"⟩) "id"
        = dlookup [("id", Val.vstr "x"), ("title", .vstr "t")] "id" := by
  refine ⟨⟨by decide, by decide⟩, ?_⟩
  exact (claim_C4_frame_preservation [("id", .vstr "x"), ("title", .vstr "t")]
    ⟨"academics", "positive", ["exam"], "d"⟩).1 "id"
    (by decide) (by decide) (by decide) (by decide)

/-- C10: when the input file `posts.jsonl` does not exist,
`enrich_posts` returns without any side effect — in particular a
pre-existing `posts_enriched.jsonl` is left untouched. -/
theorem claim_C10_missing_input_no_side_effects (oracle : Nat → SvcResult)
    (fs : EnrFS) (hin : fs.input = none) : enrich_posts oracle fs = fs := by
  unfold enrich_posts
  rw [hin]

/-- Witness for C10 at a concrete input: the input file is absent and a
pre-existing output file survives unchanged. -/
theorem claim_C10_missing_input_no_side_effects_witness :
    (EnrFS.mk none (some [[("keep", Val.vbool true)]])).input = none ∧
      enrich_posts (fun _ => .err) (EnrFS.mk none (some [[("keep", Val.vbool true)]]))
        = EnrFS.mk none (some [[("keep", Val.vbool true)]]) :=
  ⟨rfl, claim_C10_missing_input_no_side_effects (fun _ => .err) _ rfl⟩

/-! ## Helper lemmas: Category seeding -/

/-- The state the upsert establishes for one name: a node with that
name exists and every node with that name has a description. -/
def catSeeded (db : CatDB) (n : String) : Prop :=
  (∃ c ∈ db, c.name = n) ∧ ∀ c ∈ db, c.name = n → c.description.isSome

theorem mergeCategory_name_preserved (n d : String) (c : CategoryNode) :
    (if c.name = n then { c with description := some (c.description.getD d) }
      else c).name = c.name := by
  split <;> rfl

theorem mem_mergeCategory_of_isSome (db : CatDB) (n d : String)
    (c : CategoryNode) (hc : c ∈ db) (hs : c.description.isSome) :
    c ∈ mergeCategory db n d := by
  obtain ⟨cn, cd⟩ := c
  unfold mergeCategory
  split
  · have : (if (CategoryNode.mk cn cd).name = n then
        { CategoryNode.mk cn cd with
          description := some ((CategoryNode.mk cn cd).description.getD d) }
        else CategoryNode.mk cn cd) = CategoryNode.mk cn cd := by
      obtain ⟨x, hx⟩ := Option.isSome_iff_exists.1 hs
      split
      · simp only at hx
        rw [hx]
        rfl
      · rfl
    rw [← this]
    exact List.mem_map_of_mem _ hc
  · exact List.mem_append_left _ hc

theorem catSeeded_mergeCategory_self (db : CatDB) (n d : String) :
    catSeeded (mergeCategory db n d) n := by
  unfold mergeCategory
  split
  · rename_i hany
    obtain ⟨c0, hc0, hn0⟩ := by
      simpa [List.any_eq_true, decide_eq_true_eq] using hany
    constructor
    · refine ⟨_, List.mem_map_of_mem _ hc0, ?_⟩
      rw [mergeCategory_name_preserved, hn0]
    · intro c' hc' hn'
      obtain ⟨c, _, rfl⟩ := List.mem_map.1 hc'
      by_cases hcn : c.name = n
      · rw [if_pos hcn]
        rfl
      · rw [if_neg hcn] at hn' ⊢
        exact absurd hn' hcn
  · rename_i hany
    constructor
    · exact ⟨_, List.mem_append_right _ (List.mem_singleton_self _), rfl⟩
    · intro c hc hn
      rcases List.mem_append.1 hc with hc | hc
      · exact absurd (by
          simpa [List.any_eq_true, decide_eq_true_eq] using ⟨c, hc, hn⟩) hany
      · rw [List.mem_singleton.1 hc]
        rfl

theorem catSeeded_mergeCategory_mono (db : CatDB) (n d n' : String)
    (h : catSeeded db n') : catSeeded (mergeCategory db n d) n' := by
  obtain ⟨⟨c0, hc0, hn0⟩, hall⟩ := h
  unfold mergeCategory
  split
  · constructor
    · refine ⟨_, List.mem_map_of_mem _ hc0, ?_⟩
      rw [mergeCategory_name_preserved, hn0]
    · intro c' hc' hn'
      obtain ⟨c, hc, rfl⟩ := List.mem_map.1 hc'
      rw [mergeCategory_name_preserved] at hn'
      split
      · rfl
      · exact hall c hc hn'
  · constructor
    · exact ⟨c0, List.mem_append_left _ hc0, hn0⟩
    · intro c hc hn'
      rcases List.mem_append.1 hc with hc | hc
      · exact hall c hc hn'
      · rw [List.mem_singleton.1 hc]
        rfl

theorem mergeCategory_noop (db : CatDB) (n d : String)
    (h : catSeeded db n) : mergeCategory db n d = db := by
  obtain ⟨⟨c0, hc0, hn0⟩, hall⟩ := h
  unfold mergeCategory
  rw [if_pos (by
    simpa [List.any_eq_true, decide_eq_true_eq] using ⟨c0, hc0, hn0⟩)]
  have : ∀ c ∈ db, (if c.name = n then
      { c with description := some (c.description.getD d) } else c) = c := by
    intro c hc
    obtain ⟨cn, cd⟩ := c
    split
    · rename_i hcn
      obtain ⟨x, hx⟩ := Option.isSome_iff_exists.1 (hall _ hc hcn)
      simp only at hx
      rw [hx]
      rfl
    · rfl
  calc db.map _ = db.map id := List.map_congr_left this
    _ = db := List.map_id db

/-! ## Claim theorem: schema initializer -/

/-- C8: Category seeding is an idempotent upsert — it makes the three
fixed Category rows present, a second run changes nothing (in
particular creates no additional node), an already-described node
survives seeding untouched, and on an empty database it creates exactly
the three fixed name/description rows. -/
theorem claim_C8_seed_categories_idempotent_upsert (db : CatDB) :
    seed_categories (seed_categories db) = seed_categories db ∧
    (∀ nd ∈ CATEGORIES, ∃ c ∈ seed_categories db, c.name = nd.1) ∧
    (∀ c ∈ db, c.description.isSome → c ∈ seed_categories db) ∧
    seed_categories ([] : CatDB) =
      [⟨"campus_life", some "Student life, events, hostel/food, facilities, clubs, sports, social activities"⟩,
       ⟨"academics", some "Courses, exams, professors, assignments, grades, GPA, schedules"⟩,
       ⟨"admissions", some "Applications, entrance tests, merit lists, scholarships, program selection"⟩] := by
  have hstep : ∀ x : CatDB, seed_categories x =
      mergeCategory (mergeCategory (mergeCategory x "campus_life"
        "Student life, events, hostel/food, facilities, clubs, sports, social activities")
        "academics" "Courses, exams, professors, assignments, grades, GPA, schedules")
        "admissions" "Applications, entrance tests, merit lists, scholarships, program selection" :=
    fun x => rfl
  have h1 : catSeeded (seed_categories db) "campus_life" := by
    rw [hstep]
    exact catSeeded_mergeCategory_mono _ _ _ _
      (catSeeded_mergeCategory_mono _ _ _ _ (catSeeded_mergeCategory_self _ _ _))
  have h2 : catSeeded (seed_categories db) "academics" := by
    rw [hstep]
    exact catSeeded_mergeCategory_mono _ _ _ _ (catSeeded_mergeCategory_self _ _ _)
  have h3 : catSeeded (seed_categories db) "admissions" := by
    rw [hstep]
    exact catSeeded_mergeCategory_self _ _ _
  refine ⟨?_, ?_, ?_, by decide⟩
  · rw [hstep (seed_categories db), mergeCategory_noop _ _ _ h1,
      mergeCategory_noop _ _ _ h2, mergeCategory_noop _ _ _ h3]
  · intro nd hnd
    simp only [CATEGORIES, List.mem_cons, List.not_mem_nil, or_false] at hnd
    rcases hnd with rfl | rfl | rfl
    · exact h1.1
    · exact h2.1
    · exact h3.1
  · intro c hc hs
    rw [hstep]
    exact mem_mergeCategory_of_isSome _ _ _ _
      (mem_mergeCategory_of_isSome _ _ _ _
        (mem_mergeCategory_of_isSome _ _ _ _ hc hs) hs) hs

/-- Witness for C8 at a concrete input: a database already holding an
`academics` node with a custom description; seeding keeps that node
(and its description) as is. -/
theorem claim_C8_seed_categories_idempotent_upsert_witness :
    ((⟨"academics", some "custom text"⟩ : CategoryNode) ∈
        ([⟨"academics", some "custom text"⟩] : CatDB) ∧
      (Option.isSome (some "custom text") = true)) ∧
      (⟨"academics", some "custom text"⟩ : CategoryNode) ∈
        seed_categories [⟨"academics", some "custom text"⟩] := by
  refine ⟨⟨by decide, rfl⟩, ?_⟩
  exact (claim_C8_seed_categories_idempotent_upsert
    [⟨"academics", some "custom text"⟩]).2.2.1
    ⟨"academics", some "custom text"⟩ (by decide) rfl

/-! ## Helper lemmas: Collector invariants -/

theorem foldl_inv {α β : Type} (f : β → α → β) (P : β → Prop)
    (h : ∀ b a, P b → P (f b a)) :
    ∀ (l : List α) (b : β), P b → P (l.foldl f b) := by
  intro l
  induction l with
  | nil => exact fun b hb => hb
  | cons hd tl ih => exact fun b hb => ih (f b hd) (h b hd hb)

theorem foldl_inv_mem {α β : Type} (f : β → α → β) (P : β → Prop)
    (l : List α) (h : ∀ b a, a ∈ l → P b → P (f b a)) :
    ∀ (t : List α), (∀ x ∈ t, x ∈ l) → ∀ b, P b → P (t.foldl f b) := by
  intro t
  induction t with
  | nil => exact fun _ b hb => hb
  | cons hd tl ih =>
      intro hsub b hb
      exact ih (fun x hx => hsub x (List.mem_cons_of_mem _ hx)) (f b hd)
        (h b hd (hsub hd (List.mem_cons_self _ _)) hb)

theorem forall_mem_append_singleton {α : Type} (P : α → Prop) (l : List α)
    (x : α) (hl : ∀ r ∈ l, P r) (hx : P x) : ∀ r ∈ l ++ [x], P r := by
  intro r hr
  rcases List.mem_append.1 hr with hr | hr
  · exact hl r hr
  · rw [List.mem_singleton.1 hr]
    exact hx

theorem safe_author_fst (a : Option String) : (safe_author a).1 = none := by
  cases a <;> rfl

/-- Invariant behind C5: every record written so far carries
`iso_day` recomputed from its own `created_utc`. -/
def IsoInv (st : CState) : Prop :=
  (∀ r ∈ st.posts, r.iso_day = iso_day r.created_utc) ∧
  (∀ r ∈ st.comments, r.iso_day = iso_day r.created_utc)

theorem procComment_IsoInv (o : MetaOracle) (lid : String) (st : CState)
    (c : CommentIn) (h : IsoInv st) : IsoInv (procComment o lid st c) := by
  unfold procComment
  split
  · exact h
  · dsimp only
    split
    · exact ⟨h.1, forall_mem_append_singleton _ _ _ h.2 rfl⟩
    · exact ⟨h.1, forall_mem_append_singleton _ _ _ h.2 rfl⟩

theorem procSubmission_IsoInv (o : MetaOracle) (sn : String) (st : CState)
    (s : SubmissionIn) (h : IsoInv st) : IsoInv (procSubmission o sn st s) := by
  unfold procSubmission
  refine foldl_inv _ IsoInv (fun b a hb => procComment_IsoInv o s.id b a hb)
    s.comments _ ?_
  split
  · exact ⟨forall_mem_append_singleton _ _ _ h.1 rfl, h.2⟩
  · exact ⟨forall_mem_append_singleton _ _ _ h.1 rfl, h.2⟩

/-! ## Claim theorems: Collector -/

/-- C5: in every Post and every Comment record a Collector run writes,
`iso_day` equals the ISO UTC calendar date computed from that record's
own `created_utc` — it is always recomputed, never supplied
independently. -/
theorem claim_C5_iso_day_recomputed (o : MetaOracle) (sn : String)
    (subs : List SubmissionIn) :
    (∀ r ∈ (collectorRun o sn subs).posts, r.iso_day = iso_day r.created_utc) ∧
    (∀ r ∈ (collectorRun o sn subs).comments, r.iso_day = iso_day r.created_utc) :=
  foldl_inv _ IsoInv (fun b a hb => procSubmission_IsoInv o sn b a hb) subs _
    ⟨fun _ hr => absurd hr (List.not_mem_nil _), fun _ hr => absurd hr (List.not_mem_nil _)⟩

/-- Witness for C5 at a concrete input: one post (timestamp
1700000000 → `2023-11-14`) with one comment. -/
theorem claim_C5_iso_day_recomputed_witness :
    (mkPostRec "giki" none "alice"
        ⟨"p1", some "alice", "t", "", "u", 1700000000, some 5, some 1,
          [⟨false, "c1", some "bob", some "t3_p1", "hi", 1700000100, some 2, 0, false⟩]⟩ ∈
      (collectorRun (fun _ => (none, none)) "giki"
        [⟨"p1", some "alice", "t", "", "u", 1700000000, some 5, some 1,
          [⟨false, "c1", some "bob", some "t3_p1", "hi", 1700000100, some 2, 0, false⟩]⟩]).posts) ∧
      (mkPostRec "giki" none "alice"
        ⟨"p1", some "alice", "t", "", "u", 1700000000, some 5, some 1,
          [⟨false, "c1", some "bob", some "t3_p1", "hi", 1700000100, some 2, 0, false⟩]⟩).iso_day
        = iso_day (mkPostRec "giki" none "alice"
            ⟨"p1", some "alice", "t", "", "u", 1700000000, some 5, some 1,
              [⟨false, "c1", some "bob", some "t3_p1", "hi", 1700000100, some 2, 0, false⟩]⟩).created_utc := by
  refine ⟨by decide, ?_⟩
  exact (claim_C5_iso_day_recomputed (fun _ => (none, none)) "giki"
    [⟨"p1", some "alice", "t", "", "u", 1700000000, some 5, some 1,
      [⟨false, "c1", some "bob", some "t3_p1", "hi", 1700000100, some 2, 0, false⟩]⟩]).1
    _ (by decide)

/-- Invariant behind C9: `author_id` is `none` on every Post/Comment
record and every User record's id is the synthetic `"name:" + name`. -/
def AuthorInv (st : CState) : Prop :=
  (∀ r ∈ st.posts, r.author_id = none) ∧
  (∀ r ∈ st.comments, r.author_id = none) ∧
  (∀ u ∈ st.users, u.id = "name:" ++ u.name)

theorem procComment_AuthorInv (o : MetaOracle) (lid : String) (st : CState)
    (c : CommentIn) (h : AuthorInv st) : AuthorInv (procComment o lid st c) := by
  unfold procComment
  rw [show safe_author c.author = (none, (safe_author c.author).2) from
    Prod.ext (safe_author_fst c.author) rfl]
  split
  · exact h
  · dsimp only
    split
    · exact ⟨h.1, forall_mem_append_singleton _ _ _ h.2.1 rfl,
        forall_mem_append_singleton _ _ _ h.2.2 rfl⟩
    · exact ⟨h.1, forall_mem_append_singleton _ _ _ h.2.1 rfl, h.2.2⟩

theorem procSubmission_AuthorInv (o : MetaOracle) (sn : String) (st : CState)
    (s : SubmissionIn) (h : AuthorInv st) : AuthorInv (procSubmission o sn st s) := by
  unfold procSubmission
  rw [show safe_author s.author = (none, (safe_author s.author).2) from
    Prod.ext (safe_author_fst s.author) rfl]
  refine foldl_inv _ AuthorInv (fun b a hb => procComment_AuthorInv o s.id b a hb)
    s.comments _ ?_
  split
  · exact ⟨forall_mem_append_singleton _ _ _ h.1 rfl, h.2.1,
      forall_mem_append_singleton _ _ _ h.2.2 rfl⟩
  · exact ⟨forall_mem_append_singleton _ _ _ h.1 rfl, h.2.1, h.2.2⟩

/-- C9: the Collector never resolves a numeric author id — `author_id`
is `none` on every Post and Comment record (for any author, deleted or
not, since `safe_author` always returns `none` as the id), and
consequently every User record's `id` is the synthetic key
`"name:" + name`. -/
theorem claim_C9_author_id_none_synthetic_user_key (o : MetaOracle)
    (sn : String) (subs : List SubmissionIn) :
    (∀ a, (safe_author a).1 = none) ∧
    (∀ r ∈ (collectorRun o sn subs).posts, r.author_id = none) ∧
    (∀ r ∈ (collectorRun o sn subs).comments, r.author_id = none) ∧
    (∀ u ∈ (collectorRun o sn subs).users, u.id = "name:" ++ u.name) :=
  ⟨safe_author_fst,
    foldl_inv _ AuthorInv (fun b a hb => procSubmission_AuthorInv o sn b a hb) subs _
      ⟨fun _ hr => absurd hr (List.not_mem_nil _),
       fun _ hr => absurd hr (List.not_mem_nil _),
       fun _ hr => absurd hr (List.not_mem_nil _)⟩⟩

/-- Witness for C9 at a concrete input: the user record produced for
the post author "alice" has the synthetic key `"name:alice"`. -/
theorem claim_C9_author_id_none_synthetic_user_key_witness :
    (mkUserRec none "alice" ((fun _ => (none, none) : MetaOracle) "alice") ∈
      (collectorRun (fun _ => (none, none)) "giki"
        [⟨"p1", some "alice", "t", "", "u", 1700000000, some 5, some 0, []⟩]).users) ∧
      (mkUserRec none "alice" ((fun _ => (none, none) : MetaOracle) "alice")).id
        = "name:" ++ (mkUserRec none "alice"
            ((fun _ => (none, none) : MetaOracle) "alice")).name := by
  refine ⟨by decide, ?_⟩
  exact (claim_C9_author_id_none_synthetic_user_key (fun _ => (none, none)) "giki"
    [⟨"p1", some "alice", "t", "", "u", 1700000000, some 5, some 0, []⟩]).2.2.2
    _ (by decide)

theorem afterFirstUnderscore_append (pre suf : List Char) (h : '_' ∉ pre) :
    afterFirstUnderscore (pre ++ '_' :: suf) = some suf := by
  induction pre with
  | nil => simp [afterFirstUnderscore]
  | cons c cs ih =>
      have hc : ¬ c = '_' := fun hc => h (hc ▸ List.mem_cons_self _ _)
      simp only [List.cons_append, afterFirstUnderscore, if_neg hc]
      exact ih (fun hm => h (List.mem_cons_of_mem _ hm))

theorem afterFirstUnderscore_none (l : List Char) (h : '_' ∉ l) :
    afterFirstUnderscore l = none := by
  induction l with
  | nil => rfl
  | cons c cs ih =>
      have hc : ¬ c = '_' := fun hc => h (hc ▸ List.mem_cons_self _ _)
      simp only [afterFirstUnderscore, if_neg hc]
      exact ih (fun hm => h (List.mem_cons_of_mem _ hm))

theorem stripTypePrefix_split (pre suf : List Char) (h : '_' ∉ pre) :
    stripTypePrefix (String.mk (pre ++ '_' :: suf)) = String.mk suf := by
  unfold stripTypePrefix
  rw [show (String.mk (pre ++ '_' :: suf)).data = pre ++ '_' :: suf from rfl,
    afterFirstUnderscore_append pre suf h]

theorem stripTypePrefix_no_underscore (s : String) (h : '_' ∉ s.data) :
    stripTypePrefix s = s := by
  unfold stripTypePrefix
  rw [afterFirstUnderscore_none _ h]

/-- Invariant behind C6: every Comment record written so far was built
by `mkCommentRec` from some non-placeholder input comment of some input
submission. -/
def CommentProv (subs : List SubmissionIn) (st : CState) : Prop :=
  ∀ r ∈ st.comments, ∃ s ∈ subs, ∃ c ∈ s.comments, c.isMore = false ∧
    r = mkCommentRec s.id (safe_author c.author).1 (safe_author c.author).2 c

theorem procComment_CommentProv (subs : List SubmissionIn) (o : MetaOracle)
    (s : SubmissionIn) (hs : s ∈ subs) (st : CState) (c : CommentIn)
    (hc : c ∈ s.comments) (h : CommentProv subs st) :
    CommentProv subs (procComment o s.id st c) := by
  unfold procComment
  split
  · exact h
  · rename_i hm
    dsimp only
    have hrec : ∃ s' ∈ subs, ∃ c' ∈ s'.comments, c'.isMore = false ∧
        mkCommentRec s.id (safe_author c.author).1 (safe_author c.author).2 c =
          mkCommentRec s'.id (safe_author c'.author).1 (safe_author c'.author).2 c' :=
      ⟨s, hs, c, hc, Bool.not_eq_true _ ▸ hm, rfl⟩
    split
    · exact forall_mem_append_singleton _ _ _ h hrec
    · exact forall_mem_append_singleton _ _ _ h hrec

theorem procSubmission_CommentProv (subs : List SubmissionIn) (o : MetaOracle)
    (sn : String) (s : SubmissionIn) (hs : s ∈ subs) (st : CState)
    (h : CommentProv subs st) : CommentProv subs (procSubmission o sn st s) := by
  unfold procSubmission
  refine foldl_inv_mem (procComment o s.id) (CommentProv subs) s.comments
    (fun b c hc hb => procComment_CommentProv subs o s hs b c hc hb)
    s.comments (fun _ hx => hx) _ ?_
  dsimp only
  split
  · exact h
  · exact h

theorem collectorRun_CommentProv (o : MetaOracle) (sn : String)
    (subs : List SubmissionIn) : CommentProv subs (collectorRun o sn subs) :=
  foldl_inv_mem (procSubmission o sn) (CommentProv subs) subs
    (fun b s hs hb => procSubmission_CommentProv subs o sn s hs b hb)
    subs (fun _ hx => hx) _
    (fun _ hr => absurd hr (List.not_mem_nil _))

/-- C6: every Comment record the Collector writes stores, as
`parent_id`, the source parent identifier with the portion up to and
including the first underscore removed (a string without an underscore
is kept whole), and `null` when the source parent identifier is absent
(or empty, which Python treats as falsy). -/
theorem claim_C6_parent_id_type_prefix_stripped (o : MetaOracle) (sn : String)
    (subs : List SubmissionIn) :
    (∀ r ∈ (collectorRun o sn subs).comments,
      ∃ s ∈ subs, ∃ c ∈ s.comments, c.isMore = false ∧
        r.parent_id = pyParentId c.parent_id ∧
        (c.parent_id = none → r.parent_id = none) ∧
        (∀ pid, c.parent_id = some pid → pid ≠ "" →
          r.parent_id = some (stripTypePrefix pid))) ∧
    pyParentId none = none ∧
    (∀ pre suf : List Char, '_' ∉ pre →
      stripTypePrefix (String.mk (pre ++ '_' :: suf)) = String.mk suf) ∧
    (∀ s : String, '_' ∉ s.data → stripTypePrefix s = s) := by
  refine ⟨?_, rfl, stripTypePrefix_split, stripTypePrefix_no_underscore⟩
  intro r hr
  obtain ⟨s, hs, c, hc, hm, rfl⟩ := collectorRun_CommentProv o sn subs r hr
  refine ⟨s, hs, c, hc, hm, rfl, ?_, ?_⟩
  · intro hnone
    show pyParentId c.parent_id = none
    rw [hnone]
    rfl
  · intro pid hpid hne
    show pyParentId c.parent_id = some (stripTypePrefix pid)
    rw [hpid]
    show (if pid = "" then none else some (stripTypePrefix pid))
      = some (stripTypePrefix pid)
    rw [if_neg hne]

/-- Witness for C6 at a concrete input: the comment whose source parent
identifier is `"t3_p1"` is stored with the bare identifier `"p1"`. -/
theorem claim_C6_parent_id_type_prefix_stripped_witness :
    (mkCommentRec "p1" none "bob"
        ⟨false, "c1", some "bob", some "t3_p1", "hi", 1700000100, some 2, 0, false⟩ ∈
      (collectorRun (fun _ => (none, none)) "giki"
        [⟨"p1", some "alice", "t", "", "u", 1700000000, some 5, some 1,
          [⟨false, "c1", some "bob", some "t3_p1", "hi", 1700000100, some 2, 0, false⟩]⟩]).comments) ∧
      (∃ s ∈ [(⟨"p1", some "alice", "t", "", "u", 1700000000, some 5, some 1,
          [⟨false, "c1", some "bob", some "t3_p1", "hi", 1700000100, some 2, 0, false⟩]⟩ :
            SubmissionIn)],
        ∃ c ∈ s.comments, c.isMore = false ∧
          (mkCommentRec "p1" none "bob"
            ⟨false, "c1", some "bob", some "t3_p1", "hi", 1700000100, some 2, 0,
              false⟩).parent_id = pyParentId c.parent_id ∧
          (c.parent_id = none →
            (mkCommentRec "p1" none "bob"
              ⟨false, "c1", some "bob", some "t3_p1", "hi", 1700000100, some 2, 0,
                false⟩).parent_id = none) ∧
          (∀ pid, c.parent_id = some pid → pid ≠ "" →
            (mkCommentRec "p1" none "bob"
              ⟨false, "c1", some "bob", some "t3_p1", "hi", 1700000100, some 2, 0,
                false⟩).parent_id = some (stripTypePrefix pid))) ∧
      (mkCommentRec "p1" none "bob"
        ⟨false, "c1", some "bob", some "t3_p1", "hi", 1700000100, some 2, 0,
          false⟩).parent_id = some "p1" := by
  refine ⟨by decide, ?_, by decide⟩
  exact (claim_C6_parent_id_type_prefix_stripped (fun _ => (none, none)) "giki"
    [⟨"p1", some "alice", "t", "", "u", 1700000000, some 5, some 1,
      [⟨false, "c1", some "bob", some "t3_p1", "hi", 1700000100, some 2, 0, false⟩]⟩]).1
    (mkCommentRec "p1" none "bob"
      ⟨false, "c1", some "bob", some "t3_p1", "hi", 1700000100, some 2, 0, false⟩)
    (by decide)

theorem nodup_append_singleton {α : Type} (l : List α) (x : α)
    (hl : l.Nodup) (hx : x ∉ l) : (l ++ [x]).Nodup := by
  rw [List.nodup_append]
  exact ⟨hl, List.nodup_singleton x,
    fun a ha hax => hx ((List.mem_singleton.1 hax) ▸ ha)⟩

/-- Invariant behind C7: the User records written so far have pairwise
distinct names, all of which are in the `seen_users` set. -/
def UserDedupInv (st : CState) : Prop :=
  (st.users.map (fun u => u.name)).Nodup ∧ ∀ u ∈ st.users, u.name ∈ st.seen

theorem userDedup_extend (users : List UserRec) (seen : List String)
    (a_id : Option String) (nm : String) (meta : Option Int × Option Int)
    (h1 : (users.map (fun u => u.name)).Nodup)
    (h2 : ∀ u ∈ users, u.name ∈ seen) (hnm : nm ∉ seen) :
    ((users ++ [mkUserRec a_id nm meta]).map (fun u => u.name)).Nodup ∧
    ∀ u ∈ users ++ [mkUserRec a_id nm meta], u.name ∈ seen ++ [nm] := by
  constructor
  · rw [List.map_append]
    refine nodup_append_singleton _ _ h1 ?_
    intro hmem
    obtain ⟨u, hu, hname⟩ := List.mem_map.1 hmem
    have hn2 : u.name = nm := hname
    exact hnm (hn2 ▸ h2 u hu)
  · refine forall_mem_append_singleton _ _ _ ?_ ?_
    · exact fun u hu => List.mem_append_left _ (h2 u hu)
    · exact List.mem_append_right _ (List.mem_singleton_self _)

theorem procComment_UserDedupInv (o : MetaOracle) (lid : String) (st : CState)
    (c : CommentIn) (h : UserDedupInv st) : UserDedupInv (procComment o lid st c) := by
  unfold procComment
  split
  · exact h
  · dsimp only
    split
    · rename_i hcond
      obtain ⟨hn, ha⟩ := userDedup_extend st.users st.seen (safe_author c.author).1
        (safe_author c.author).2 (fetch_user_meta o (safe_author c.author).2)
        h.1 h.2 hcond.2.1
      exact ⟨hn, ha⟩
    · exact ⟨h.1, h.2⟩

theorem procSubmission_UserDedupInv (o : MetaOracle) (sn : String) (st : CState)
    (s : SubmissionIn) (h : UserDedupInv st) :
    UserDedupInv (procSubmission o sn st s) := by
  unfold procSubmission
  refine foldl_inv _ UserDedupInv
    (fun b a hb => procComment_UserDedupInv o s.id b a hb) s.comments _ ?_
  dsimp only
  split
  · rename_i hcond
    obtain ⟨hn, ha⟩ := userDedup_extend st.users st.seen (safe_author s.author).1
      (safe_author s.author).2 (fetch_user_meta o (safe_author s.author).2)
      h.1 h.2 hcond.2
    exact ⟨hn, ha⟩
  · exact ⟨h.1, h.2⟩

/-- C7: within one Collector run at most one User record is written per
distinct author display name (the names of the written User records are
pairwise distinct), and processing a comment whose author resolves to
`"[deleted]"` writes no User record and makes no reputation-enrichment
call. -/
theorem claim_C7_user_dedup_and_deleted_comment_skip (o : MetaOracle)
    (sn : String) (subs : List SubmissionIn) :
    ((collectorRun o sn subs).users.map (fun u => u.name)).Nodup ∧
    (∀ (lid : String) (st : CState) (c : CommentIn),
      (safe_author c.author).2 = "[deleted]" →
      (procComment o lid st c).users = st.users ∧
      (procComment o lid st c).metaCalls = st.metaCalls) := by
  constructor
  · have hInv : UserDedupInv (collectorRun o sn subs) :=
      foldl_inv _ UserDedupInv
        (fun b a hb => procSubmission_UserDedupInv o sn b a hb) subs
        (⟨[], [], [], [], []⟩ : CState)
        ⟨List.nodup_nil, fun _ hr => absurd hr (List.not_mem_nil _)⟩
    exact hInv.1
  · intro lid st c hdel
    unfold procComment
    split
    · exact ⟨rfl, rfl⟩
    · dsimp only
      rw [if_neg (fun hcond => hcond.2.2 hdel)]
      exact ⟨rfl, rfl⟩

/-- Witness for C7 at a concrete input: a run where "alice" authors the
post and a comment (one User record results), and a deleted comment
author leaves users and the call log untouched. -/
theorem claim_C7_user_dedup_and_deleted_comment_skip_witness :
    ((collectorRun (fun _ => (some 7, some 1600000000)) "giki"
        [⟨"p1", some "alice", "t", "", "u", 1700000000, some 5, some 2,
          [⟨false, "c1", some "alice", some "t3_p1", "hi", 1700000100, some 2, 0, true⟩,
           ⟨false, "c2", none, some "t1_c1", "gone", 1700000200, some 1, 1, false⟩]⟩]).users.map
      (fun u => u.name)).Nodup ∧
      ((safe_author (none : Option String)).2 = "[deleted]" ∧
        (procComment (fun _ => (some 7, some 1600000000)) "p1"
            ⟨[], [], [], [], []⟩
            ⟨false, "c2", none, some "t1_c1", "gone", 1700000200, some 1, 1, false⟩).users
          = (⟨[], [], [], [], []⟩ : CState).users) := by
  refine ⟨(claim_C7_user_dedup_and_deleted_comment_skip
    (fun _ => (some 7, some 1600000000)) "giki"
    [⟨"p1", some "alice", "t", "", "u", 1700000000, some 5, some 2,
      [⟨false, "c1", some "alice", some "t3_p1", "hi", 1700000100, some 2, 0, true⟩,
       ⟨false, "c2", none, some "t1_c1", "gone", 1700000200, some 1, 1, false⟩]⟩]).1,
    rfl, ?_⟩
  exact ((claim_C7_user_dedup_and_deleted_comment_skip
    (fun _ => (some 7, some 1600000000)) "giki" []).2 "p1"
    ⟨[], [], [], [], []⟩
    ⟨false, "c2", none, some "t1_c1", "gone", 1700000200, some 1, 1, false⟩ rfl).1

end BD
